import Mathlib

/-!
A shallow embedding of the field-extraction engine of the slick-scan
repository (the complete `extractFieldsV2` pipeline found in
`src/src/__tests__/extractFields.test.ts` lines 266-567, whose scanner part
is character-identical to `src/src/useScans.tsx` lines 51-251, and whose
arbiter part also appears, commented out, in `src/src/index.tsx`).

JavaScript strings are modelled as Lean `String`s (lists of characters);
the handful of regular expressions the engine uses are hand-compiled into
executable matchers whose backtracking order follows the ECMAScript
semantics.  `Date.now()` is passed in as an explicit `now : Int`
(milliseconds since the epoch); `new Date(s).getTime()` on the
`"MM/DD/YYYY"`-style strings the engine builds is modelled by
`jsTimestamp`, with an invalid date (`NaN`) represented as `none`
(local-time offset is taken to be zero).  Number-valued confidences are
modelled as rationals; the five literals 0.8, 0.85, 0.9, 0.95, 1.0 that
the engine uses are pairwise well-separated, so rational comparisons agree
with the IEEE-double comparisons V8 performs.
-/

namespace SlickScan

/-- JS `\d`. -/
def isDigitCh (c : Char) : Bool := '0' ≤ c && c ≤ '9'

/-- JS `\w` (the `u`-flag is not set on any of the engine's regexes). -/
def isWordCh (c : Char) : Bool :=
  ('a' ≤ c && c ≤ 'z') || ('A' ≤ c && c ≤ 'Z') || isDigitCh c || c = '_'

/-- JS `\s` (the ASCII part plus NBSP; the OCR lines at hand contain no
exotic Unicode whitespace). -/
def isSpaceCh (c : Char) : Bool :=
  c = ' ' || c = '\t' || c = '\n' || c = '\r' ||
  c = Char.ofNat 11 || c = Char.ofNat 12 || c = Char.ofNat 160

/-- Character class `[A-Za-z .-]` used by the name/spouse patterns. -/
def isNameCh (c : Char) : Bool :=
  ('a' ≤ c && c ≤ 'z') || ('A' ≤ c && c ≤ 'Z') || c = ' ' || c = '.' || c = '-'

/-- Lower-case an ASCII letter (JS case-insensitive matching on the
ASCII alternatives the engine uses). -/
def lowerCh (c : Char) : Char :=
  if 'A' ≤ c && c ≤ 'Z' then Char.ofNat (c.toNat + 32) else c

def lowerL (l : List Char) : List Char := l.map lowerCh

/-- Case-insensitive literal prefix test. -/
def ciStarts (l : List Char) (w : List Char) : Bool :=
  w.isPrefixOf (lowerL l)

/-- Case-insensitive substring test. -/
def ciContains (l : List Char) (w : List Char) : Bool :=
  decide (w <:+: lowerL l)

/-- `String.prototype.trim`. -/
def jsTrimL (l : List Char) : List Char :=
  ((l.dropWhile isSpaceCh).reverse.dropWhile isSpaceCh).reverse

def jsTrim (s : String) : String := (jsTrimL s.data).asString

/-- `str.split(ch)` keeping empty pieces (ECMAScript split). -/
def splitCh (ch : Char) : List Char → List (List Char)
  | [] => [[]]
  | c :: r =>
    if c = ch then [] :: splitCh ch r
    else
      match splitCh ch r with
      | p :: ps => (c :: p) :: ps
      | [] => [[c]]

/-- `text.split('\n').map(line => line.trim()).filter(Boolean)` -/
def toLines (text : String) : List String :=
  (((splitCh '\n' text.data).map jsTrimL).filter (· ≠ [])).map List.asString

/-- One candidate match (interface `FieldMatch`). -/
structure FieldMatch where
  value : String
  confidence : ℚ
  line : Nat
  pattern : String
  position : Nat
deriving Repr, DecidableEq

/-- The per-field candidate lists (interface `FieldMatches`). -/
structure FieldMatches where
  id : List FieldMatch
  name : List FieldMatch
  dor : List FieldMatch
  issue : List FieldMatch
  valid : List FieldMatch
  spousePartner : List FieldMatch
  other : List FieldMatch
deriving Repr, DecidableEq

def FieldMatches.empty : FieldMatches := ⟨[], [], [], [], [], [], []⟩

/-- Pointwise append of two candidate tables (push order of the scan). -/
def FieldMatches.append (a b : FieldMatches) : FieldMatches :=
  ⟨a.id ++ b.id, a.name ++ b.name, a.dor ++ b.dor, a.issue ++ b.issue,
   a.valid ++ b.valid, a.spousePartner ++ b.spousePartner, a.other ++ b.other⟩

/-! ### The date-token regex `\d{1,2}[\/\-]\d{1,2}[\/\-]\d{2,4}`

`dmOptions` enumerates the ways `\d{1,2}` can match at the head of the
input, greedy first; `yearOptions` does the same for `\d{2,4}`; a
separator is a literal `/` or `-`.  `dateMatchesAt` enumerates all the
ways the whole token can match at the current position, in ECMAScript
backtracking order (later sub-expressions backtrack first, hence the
lexicographic day-major / month-next / year-last descending order that
the nested binds produce). -/

def dmOptions : List Char → List (List Char × List Char)
  | a :: b :: r =>
    if isDigitCh a then
      if isDigitCh b then [([a, b], r), ([a], b :: r)] else [([a], b :: r)]
    else []
  | [a] => if isDigitCh a then [([a], [])] else []
  | [] => []

def yearOptions (l : List Char) : List (List Char × List Char) :=
  let ds := l.takeWhile isDigitCh
  let n := min ds.length 4
  if n < 2 then []
  else (List.range (n - 1)).map fun i => (l.take (n - i), l.drop (n - i))

def sepOption : List Char → List (Char × List Char)
  | c :: r => if c = '/' || c = '-' then [(c, r)] else []
  | [] => []

/-- All matches of the date-token regex anchored at the head of `l`,
as (matched text, remaining input), highest backtracking priority first. -/
def dateMatchesAt (l : List Char) : List (List Char × List Char) :=
  (dmOptions l).flatMap fun (d, r1) =>
    (sepOption r1).flatMap fun (s1, r2) =>
      (dmOptions r2).flatMap fun (m, r3) =>
        (sepOption r3).flatMap fun (s2, r4) =>
          (yearOptions r4).map fun (y, r5) =>
            (d ++ s1 :: m ++ s2 :: y, r5)

/-- `line.match(/\d{1,2}[\/\-]\d{1,2}[\/\-]\d{2,4}/g)`: leftmost matches,
each greedy, resuming after the end of the previous match. -/
def datesOfAux : Nat → List Char → List String
  | 0, _ => []
  | _ + 1, [] => []
  | fuel + 1, l =>
    match (dateMatchesAt l).head? with
    | some (tok, rest) => tok.asString :: datesOfAux fuel rest
    | none => datesOfAux fuel (l.drop 1)

def datesOf (s : String) : List String := datesOfAux (s.data.length + 1) s.data

/-- `line.match(/\d{1,2}[\/\-]\d{1,2}[\/\-]\d{2,4}/)`: the first match. -/
def firstDateOf (s : String) : Option String := (datesOf s).head?

/-! ### The range regex
`(\d{1,2}[\/\-]\d{1,2}[\/\-]\d{2,4})\s*[-–]\s*(\d{1,2}[\/\-]\d{1,2}[\/\-]\d{2,4})` -/

/-- Try the range regex anchored at the head of `l`: each candidate for
group 1 in backtracking order, then greedy `\s*`, a `-` or `–`, greedy
`\s*`, and a candidate for group 2 (nothing follows group 2, so its
greedy first candidate decides). -/
def tryRangeAt (l : List Char) : Option (String × String) :=
  (dateMatchesAt l).firstM fun (t1, rest) =>
    match (rest.dropWhile isSpaceCh) with
    | c :: r3 =>
      if c = '-' || c = '–' then
        ((dateMatchesAt (r3.dropWhile isSpaceCh)).head?).map
          fun (t2, _) => (t1.asString, t2.asString)
      else none
    | [] => none

def rangeOfAux : Nat → List Char → Option (String × String)
  | 0, _ => none
  | _ + 1, [] => none
  | fuel + 1, l =>
    match tryRangeAt l with
    | some p => some p
    | none => rangeOfAux fuel (l.drop 1)

def rangeOf (s : String) : Option (String × String) :=
  rangeOfAux (s.data.length + 1) s.data

/-! ### `normalizeDate` (useScans.tsx lines 32-44) -/

/-- `dateStr.split(/[\/\-]/)` (ECMAScript split keeps empty pieces). -/
def splitSep : List Char → List (List Char)
  | [] => [[]]
  | c :: r =>
    if c = '/' || c = '-' then [] :: splitSep r
    else
      match splitSep r with
      | p :: ps => (c :: p) :: ps
      | [] => [[c]]

/-- `padStart(2, '0')`. -/
def padStart2 (l : List Char) : List Char :=
  if l.length < 2 then List.replicate (2 - l.length) '0' ++ l else l

/-- `day.replace(/[^\d]/g, '')`. -/
def digitsOnly (l : List Char) : List Char := l.filter isDigitCh

/-- `normalizeDate` from useScans.tsx: split on `/` or `-`; with exactly
three parts, rebuild as DD/MM/YYYY (day stripped of non-digits and
0-padded, month 0-padded, 2-character years prefixed with `20`);
otherwise return the input unchanged. -/
def normalizeDate (s : String) : String :=
  match splitSep s.data with
  | [day, month, year] =>
    let normalizedDay := padStart2 (digitsOnly day)
    let normalizedMonth := padStart2 month
    let fullYear := if year.length = 2 then '2' :: '0' :: year else year
    (normalizedDay ++ '/' :: normalizedMonth ++ '/' :: fullYear).asString
  | _ => s

/-! ### `new Date(str).getTime()` on the engine's `A/B/Y` strings

V8 reads such a string as month `A`, day `B`, year `Y` (US order),
requires `1 ≤ A ≤ 12` and `1 ≤ B ≤ 31` (otherwise the result is an
invalid date, i.e. `NaN`, modelled as `none`), and otherwise builds the
time value by day arithmetic, so a day count past the month's end rolls
over into the next month.  Local-time offset is modelled as zero; it is
constant across the comparisons the engine makes and so never affects
them. -/

/-- Days from the civil epoch 1970-01-01 (Hinnant's algorithm); `d` may
exceed the month length, in which case it rolls over, as V8's `MakeDay`
does. -/
def daysFromCivil (y m d : Int) : Int :=
  let y1 := if m ≤ 2 then y - 1 else y
  let era := (if 0 ≤ y1 then y1 else y1 - 399) / 400
  let yoe := y1 - era * 400
  let mp := if 2 < m then m - 3 else m + 9
  let doy := (153 * mp + 2) / 5 + d - 1
  let doe := yoe * 365 + yoe / 4 - yoe / 100 + doy
  era * 146097 + doe - 719468

def digitsToNat (l : List Char) : Nat :=
  l.foldl (fun a c => a * 10 + (c.toNat - '0'.toNat)) 0

def msPerDay : Int := 86400000

/-- `new Date(s).getTime()` for a string of shape `A/B/Y`; `none` is
`NaN`. -/
def jsTimestamp (s : String) : Option Int :=
  match (s.data.splitOn '/') with
  | [a, b, y] =>
    if a ≠ [] && b ≠ [] && y ≠ [] &&
       a.all isDigitCh && b.all isDigitCh && y.all isDigitCh then
      let A : Int := digitsToNat a
      let B : Int := digitsToNat b
      let Y : Int := digitsToNat y
      if 1 ≤ A && A ≤ 12 && 1 ≤ B && B ≤ 31 then
        some (daysFromCivil Y A B * msPerDay)
      else none
    else none
  | _ => none

/-! ### `Array.prototype.sort`

V8's sort is stable, so each call is modelled by a stable insertion
sort with the same comparator order; a comparator result of `NaN`
(timestamp subtraction involving an invalid date) is treated as `0` by
the ECMAScript sort machinery. -/

/-- Insert, keeping elements with confidence `≥ x.confidence` before `x`
(stable descending order for `(a, b) => b.confidence - a.confidence`). -/
def insertDesc (x : FieldMatch) : List FieldMatch → List FieldMatch
  | [] => [x]
  | y :: ys =>
    if y.confidence ≤ x.confidence then x :: y :: ys else y :: insertDesc x ys

/-- `list.sort((a, b) => b.confidence - a.confidence)`. -/
def jsSortDesc : List FieldMatch → List FieldMatch
  | [] => []
  | m :: rest => insertDesc m (jsSortDesc rest)

/-- The timestamp comparator `(a, b) => a.timestamp - b.timestamp` says
"strictly before" only when both timestamps are real numbers (a `NaN`
difference is treated as `0`). -/
def tsLt (a b : Option Int) : Bool :=
  match a, b with
  | some x, some y => x < y
  | _, _ => false

/-- Stable ascending insertion for the timestamp comparator. -/
def insertAsc (x : String × Option Int) :
    List (String × Option Int) → List (String × Option Int)
  | [] => [x]
  | y :: ys => if tsLt x.2 y.2 then x :: y :: ys else y :: insertAsc x ys

/-- `.map(d => ({date: d, timestamp: new Date(normalizeDate(d)).getTime()}))
     .sort((a, b) => a.timestamp - b.timestamp)`, keeping only the dates. -/
def sortByTimestamp (dates : List String) : List String :=
  let tagged := dates.map fun d => (d, jsTimestamp (normalizeDate d))
  (tagged.foldl (fun acc x => insertAsc x acc) []).map (·.1)

/-! ### The id regex `\b\d{6,8}\b` (and the bare `\d{6,8}` test)

Both `\b`s force the match to be a maximal run of digits whose
neighbours (if any) are non-word characters, of length 6 to 8; a longer
or shorter such run, or one flanked by a word character, never matches
(starting inside a digit run fails the leading `\b`). -/

def idScan : Nat → Option Char → List Char → Option String
  | 0, _, _ => none
  | _ + 1, _, [] => none
  | fuel + 1, prev, c :: r =>
    if isDigitCh c && (prev.all fun p => ¬ isWordCh p) then
      let run := c :: r.takeWhile isDigitCh
      let rest := r.dropWhile isDigitCh
      if 6 ≤ run.length && run.length ≤ 8 &&
         (rest.head?.all fun nc => ¬ isWordCh nc) then
        some run.asString
      else idScan fuel run.getLast? rest
    else idScan fuel (some c) r

/-- `line.match(/\b\d{6,8}\b/)`, first match. -/
def idFirstMatch (s : String) : Option String :=
  idScan (s.data.length + 1) none s.data

/-- `/\d{6,8}/.test(line)`: some run of at least 6 consecutive digits. -/
def hasSixDigitRun : List Char → Bool
  | [] => false
  | l@(_ :: r) => 6 ≤ (l.takeWhile isDigitCh).length || hasSixDigitRun r

/-! ### Word-bounded labels `\bDOR\b`, `\bISSUE[D]?\b`, `\bVALID\b` (ci) -/

/-- A case-insensitive occurrence of word `w` with both neighbours (if
any) outside `\w`; `optD` additionally allows a single trailing `d`/`D`
(for `ISSUE[D]?`, greedy). -/
def wordScan : Nat → Option Char → List Char → List Char → Bool → Bool
  | 0, _, _, _, _ => false
  | _ + 1, _, [], _, _ => false
  | fuel + 1, prev, l@(c :: r), w, optD =>
    (if (prev.all fun p => ¬ isWordCh p) && ciStarts l w then
      let after := l.drop w.length
      let withD := optD && (after.head? = some 'd' || after.head? = some 'D') &&
        ((after.drop 1).head?.all fun nc => ¬ isWordCh nc)
      let withoutD := after.head?.all fun nc => ¬ isWordCh nc
      withD || withoutD
    else false) ||
      wordScan fuel (some c) r w optD

def hasWordCI (s : String) (w : String) (optD : Bool := false) : Bool :=
  wordScan (s.data.length + 1) none s.data w.data optD

/-! ### The labelled name/spouse regexes

`/NAME[\s:]+([A-Za-z .-]+)(?:\n|$)/i` (and the same shape with
`SPOUSE\/PARTNER`): on a single line the `(?:\n|$)` forces the group to
reach the end of the line, so a match at position `p` needs the literal
label there, then a non-empty run of `[\s:]`, then a non-empty
all-`[A-Za-z .-]` rest of line.  With the greedy `[\s:]+` the group is
the text after the run; when nothing follows the run the engine backs
up one character, which can only succeed on a space.  `match[0]` is the
whole suffix of the line starting at `p`. -/

/-- Attempt the labelled pattern at the head of `t`; returns the group. -/
def labelAt (t : List Char) (label : List Char) : Option (List Char) :=
  if ciStarts t label then
    let rest := t.drop label.length
    let run := rest.takeWhile fun c => isSpaceCh c || c = ':'
    let after := rest.dropWhile fun c => isSpaceCh c || c = ':'
    if run = [] then none
    else if after ≠ [] then
      if after.all isNameCh then some after else none
    else if run.getLast? = some ' ' then some [' ']
    else none
  else none

/-- Leftmost match of the labelled pattern: `(match[0], match[1])`. -/
def labelScan : Nat → List Char → List Char → Option (List Char × List Char)
  | 0, _, _ => none
  | _ + 1, [], _ => none
  | fuel + 1, t, label =>
    match labelAt t label with
    | some g => some (t, g)
    | none => labelScan fuel (t.drop 1) label

def labelMatch (s : String) (label : String) : Option (String × String) :=
  (labelScan (s.data.length + 1) s.data label.data).map
    fun (m0, g) => (m0.asString, g.asString)

/-! ### `/^([A-Za-z .-]+)\s+\d{6,8}$/` and
`/^([A-Za-z .-]+)(?:\s+\d{6,8})?$/`

Anchored at both ends: the line must end in a maximal digit run of
length 6-8 (a longer run leaves a digit in front of whatever `\d{6,8}`
takes, and `\s+` cannot match it), preceded by at least one whitespace
character; the greedy group is the all-`[A-Za-z .-]` prefix plus as many
of the interleaving spaces as are plain `' '` (leaving at least one
whitespace character to `\s+`). -/

def nameIdMatch (l : List Char) : Option (List Char) :=
  let rev := l.reverse
  let digs := rev.takeWhile isDigitCh
  if 6 ≤ digs.length && digs.length ≤ 8 then
    let rest1 := rev.drop digs.length
    let ws := rest1.takeWhile isSpaceCh
    if ws = [] then none
    else
      let a0 := (rest1.drop ws.length).reverse
      let wsF := ws.reverse
      let w1 := (wsF.takeWhile (· = ' ')).take (wsF.length - 1)
      if a0.all isNameCh && (a0 ≠ [] || w1 ≠ []) then some (a0 ++ w1)
      else none
  else none

/-- `nextLine.match(/^([A-Za-z .-]+)(?:\s+\d{6,8})?$/)`: either the whole
line is in the class, or the optional digit tail matches as above. -/
def nameNextMatch (l : List Char) : Option (List Char) :=
  if l ≠ [] && l.all isNameCh then some l else nameIdMatch l

/-! ### `/^([A-Za-z .-]+)(?:\s+Rd|\s+Street|\s+Avenue|\s+Road)/i`

The group is greedy, so the match uses the longest class prefix that is
immediately followed by whitespace and one of the street words
(checked in alternation order); the match is not anchored at the end. -/

/-- Does `\s+(Rd|Street|Avenue|Road)` (ci) match at the head of `t`?
Returns the number of characters consumed. -/
def streetAt (t : List Char) : Option Nat :=
  let ws := t.takeWhile isSpaceCh
  if ws = [] then none
  else
    let rest := t.drop ws.length
    if ciStarts rest "rd".data then some (ws.length + 2)
    else if ciStarts rest "street".data then some (ws.length + 6)
    else if ciStarts rest "avenue".data then some (ws.length + 6)
    else if ciStarts rest "road".data then some (ws.length + 4)
    else none

/-- Search `q` downward for the longest group. -/
def streetScan (l : List Char) : Nat → Option (List Char × List Char)
  | 0 => none
  | q + 1 =>
    match streetAt (l.drop (q + 1)) with
    | some k => some (l.take (q + 1), l.take (q + 1 + k))
    | none => streetScan l q

/-- `(match[0], match[1])` of the street-adjacency spouse pattern. -/
def spouseStreetMatch (s : String) : Option (String × String) :=
  let l := s.data
  (streetScan l (l.takeWhile isNameCh).length).map
    fun (g, m0) => (m0.asString, g.asString)

/-- `/(?:\s+Rd|\s+Street|\s+Avenue|\s+Road)/i.test(line)` (unanchored). -/
def hasStreetSuffix : List Char → Bool
  | [] => false
  | l@(_ :: r) => (streetAt l).isSome || hasStreetSuffix r

/-! ### Section-header predicates and the child-name shape -/

/-- `/^(NAME|DOR|ISSUE|VALID|SPOUSE\/PARTNER|OTHER|Licence)\s*$/i` on an
already-trimmed line: the line is exactly one of the seven labels. -/
def labelOnly (s : String) : Bool :=
  let lc := (lowerL s.data).asString
  lc = "name" || lc = "dor" || lc = "issue" || lc = "valid" ||
  lc = "spouse/partner" || lc = "other" || lc = "licence"

/-- The arbiter's section-end regex, which additionally knows the
document title:
`/^(NAME|DOR|ISSUE|VALID|SPOUSE\/PARTNER|OTHER|Licence|FAMILY SEASON LICENCE)\s*$/i`. -/
def headerExact (s : String) : Bool :=
  labelOnly s || (lowerL s.data).asString = "family season licence"

/-- `/^OTHER\s*$/i` on a trimmed line. -/
def isOtherHeader (s : String) : Bool := (lowerL s.data).asString = "other"

/-- `/^NAME\s*$/i` on a trimmed line. -/
def isNameHeader (s : String) : Bool := (lowerL s.data).asString = "name"

/-- The arbiter's noise/header prefix regex
`/^(NAME|DOR|ISSUE|VALID|SPOUSE\/PARTNER|OTHER|Licence|FAMILY SEASON LICENCE|wae|srouserasmen|cance|Comin|ets)\b/i`:
one of the alternatives at the start of the line followed by a word
boundary. -/
def headerPrefixed (s : String) : Bool :=
  let l := s.data
  let one := fun (w : String) =>
    ciStarts l w.data && ((l.drop w.data.length).head?.all fun c => ¬ isWordCh c)
  one "name" || one "dor" || one "issue" || one "valid" ||
  one "spouse/partner" || one "other" || one "licence" ||
  one "family season licence" || one "wae" || one "srouserasmen" ||
  one "cance" || one "comin" || one "ets"

/-- `/^[A-Za-z][A-Za-z\s\d-]*[A-Za-z\d]$/`: starts with a letter, middle
letters/whitespace/digits/hyphens, ends with a letter or digit. -/
def childShape (s : String) : Bool :=
  let isLetter := fun (c : Char) =>
    ('a' ≤ c && c ≤ 'z') || ('A' ≤ c && c ≤ 'Z')
  match s.data with
  | [] => false
  | [_] => false
  | c :: rest =>
    isLetter c &&
    (rest.dropLast.all fun m => isLetter m || isSpaceCh m || isDigitCh m || m = '-') &&
    (rest.getLast?.all fun e => isLetter e || isDigitCh e)

/-- `/^SPOUSE\/PARTNER/i.test(line)` (prefix, no boundary). -/
def startsSpousePartner (s : String) : Bool := ciStarts s.data "spouse/partner".data

/-! ### The unlabeled-date block (useScans.tsx lines 156-247) -/

def msPerYear : Int := 31536000000

/-- The lone-date plausibility test:
`yearsDiff = (now - t) / (1000*60*60*24*365); yearsDiff > 18 && yearsDiff < 100`.
For the integer millisecond values involved the floating-point division
compares against 18 and 100 exactly as the integer products do, and a
`NaN` timestamp fails both comparisons. -/
def ageInBand (tok : String) (now : Int) : Bool :=
  match jsTimestamp tok with
  | some t => 18 * msPerYear < now - t && now - t < 100 * msPerYear
  | none => false

/-- The four non-unit confidence literals 0.8, 0.85, 0.9, 0.95 of the
source, as exact rationals (the five values used are pairwise
well-separated, so exact comparison agrees with V8's double
comparison). -/
def q80 : ℚ := ⟨4, 5, by norm_num, by norm_num [Nat.Coprime]⟩

def q85 : ℚ := ⟨17, 20, by norm_num, by norm_num [Nat.Coprime]⟩

def q90 : ℚ := ⟨9, 10, by norm_num, by norm_num [Nat.Coprime]⟩

def q95 : ℚ := ⟨19, 20, by norm_num, by norm_num [Nat.Coprime]⟩

def mkMatch (v : String) (c : ℚ) (ln : Nat) (pat : String) : FieldMatch :=
  ⟨v, c, ln, pat, ln⟩

/-- The `if (dates)` block of the scanner: range pattern first, then the
3-date and 1-date fallbacks.  `dates` is `line.match(dateRegex/g)`;
`rangeOf` is the range regex; the two range group values are removed
from `dates` by string equality before the two-remaining-dates rule. -/
def unlabeledPass (line : String) (lineNum : Nat) (now : Int) : FieldMatches :=
  match datesOf line with
  | [] => FieldMatches.empty
  | dates =>
    match rangeOf line with
    | some (r1, r2) =>
      let validValue := normalizeDate r1 ++ " - " ++ normalizeDate r2
      let validCand := mkMatch validValue q95 lineNum "valid-range"
      let remainingDates := dates.filter fun d => ¬ (d = r1 || d = r2)
      if remainingDates.length = 2 then
        let sorted := sortByTimestamp remainingDates
        { FieldMatches.empty with
          valid := [validCand]
          dor := [mkMatch (normalizeDate (sorted.getD 0 "")) q90 lineNum "dor-with-range"]
          issue := [mkMatch (normalizeDate (sorted.getD 1 "")) q85 lineNum "issue-with-range"] }
      else { FieldMatches.empty with valid := [validCand] }
    | none =>
      if dates.length = 3 then
        let sorted := sortByTimestamp dates
        { FieldMatches.empty with
          dor := [mkMatch (normalizeDate (sorted.getD 0 "")) q90 lineNum "dor-position-oldest"]
          issue := [mkMatch (normalizeDate (sorted.getD 1 "")) q85 lineNum "issue-position-middle"]
          valid := [mkMatch (normalizeDate (sorted.getD 2 "")) q80 lineNum "valid-position-newest"] }
      else if dates.length = 1 then
        let dateValue := normalizeDate (dates.getD 0 "")
        if ageInBand dateValue now then
          { FieldMatches.empty with
            dor := [mkMatch dateValue q80 lineNum "dor-age-range"] }
        else FieldMatches.empty
      else FieldMatches.empty

/-! ### One iteration of `lines.forEach((line, lineNum) => ...)` -/

/-- The candidates iteration `lineNum` pushes (in push order per field). -/
def scanLine (lines : List String) (lineNum : Nat) (now : Int) : FieldMatches :=
  let line := lines.getD lineNum ""
  let idList :=
    match idFirstMatch line with
    | some v => [mkMatch v (1 : Rat) lineNum "id-pattern"]
    | none => []
  let nameM : Option (String × String) :=
    match labelMatch line "name" with
    | some r => some r
    | none => (nameIdMatch line.data).map fun g => (line, List.asString g)
  let nameList :=
    match nameM with
    | some (m0, g) =>
      if labelOnly line then []
      else [mkMatch (jsTrim g) (if "NAME".data.isPrefixOf m0.data then (1 : Rat) else q90)
              lineNum "name-pattern"]
    | none => []
  let nameNextList :=
    if isNameHeader line && lineNum + 1 < lines.length then
      let nextLine := lines.getD (lineNum + 1) ""
      match nameNextMatch nextLine.data with
      | some g =>
        if labelOnly nextLine then []
        else [mkMatch (jsTrim g.asString) q95 (lineNum + 1) "name-next-line"]
      | none => []
    else []
  let spouseM :=
    match labelMatch line "spouse/partner" with
    | some r => some r
    | none => spouseStreetMatch line
  let spouseList :=
    match spouseM with
    | some (m0, g) =>
      [mkMatch (jsTrim g) (if ciContains m0.data "spouse".data then (1 : Rat) else q80)
         lineNum "spouse-pattern"]
    | none => []
  let dorLabeled :=
    if hasWordCI line "dor" then
      match firstDateOf line with
      | some d => [mkMatch (normalizeDate d) (1 : Rat) lineNum "dor-labeled"]
      | none => []
    else []
  let issueLabeled :=
    if hasWordCI line "issue" true then
      match firstDateOf line with
      | some d => [mkMatch (normalizeDate d) (1 : Rat) lineNum "issue-labeled"]
      | none => []
    else []
  let validLabeled :=
    if hasWordCI line "valid" then
      match firstDateOf line with
      | some d => [mkMatch (normalizeDate d) (1 : Rat) lineNum "valid-labeled"]
      | none => []
    else []
  let ul := unlabeledPass line lineNum now
  { id := idList
    name := nameList ++ nameNextList
    dor := dorLabeled ++ ul.dor
    issue := issueLabeled ++ ul.issue
    valid := validLabeled ++ ul.valid
    spousePartner := spouseList
    other := [] }

/-- The whole first pass over the lines. -/
def scanPass (lines : List String) (now : Int) : FieldMatches :=
  (List.range lines.length).foldl
    (fun acc i => acc.append (scanLine lines i now)) FieldMatches.empty

/-! ### The dependents ("other") pass (extractFields.test.ts lines 465-541) -/

/-- A collected dependent line inside an explicit OTHER section. -/
def childOK (ln : String) (nameL spouseL : List FieldMatch) : Bool :=
  ln.data.length > 0 && childShape ln && ¬ headerPrefixed ln &&
  ¬ (nameL.any fun m => m.value = ln) &&
  ¬ (spouseL.any fun m => m.value = ln)

/-- The inner `while` of the OTHER section: collect dependent names from
index `j` until a section-end header (or the end of the lines); returns
the collected lines and the index where the scan stopped (the outer loop
resumes there). -/
def collectChildren (lines : List String) (nameL spouseL : List FieldMatch) :
    Nat → Nat → List String × Nat
  | 0, j => ([], j)
  | fuel + 1, j =>
    match lines.drop j with
    | [] => ([], j)
    | nextLine :: _ =>
      if headerExact nextLine then ([], j)
      else
        let (rest, stop) := collectChildren lines nameL spouseL fuel (j + 1)
        if childOK nextLine nameL spouseL then (nextLine :: rest, stop)
        else (rest, stop)

/-- The guard of the implicit-dependent branch (used only before any
OTHER header, after the spouse/partner line). -/
def implicitOK (ln : String) (nameL spouseL : List FieldMatch) : Bool :=
  ¬ headerPrefixed ln && ¬ hasSixDigitRun ln.data && (datesOf ln).isEmpty &&
  ¬ hasStreetSuffix ln.data && ln.data.length > 0 && childShape ln &&
  ¬ (nameL.any fun m => m.value = ln) &&
  ¬ (spouseL.any fun m => m.value = ln)

/-- The stateful `for` loop over the lines; returns the collected
`otherLines` and the `foundOtherSection` flag. -/
def otherLoop (lines : List String) (nameL spouseL : List FieldMatch) :
    Nat → Nat → Bool → Bool → List String × Bool
  | 0, _, _, foundOther => ([], foundOther)
  | fuel + 1, i, foundSpouse, foundOther =>
    match lines.drop i with
    | [] => ([], foundOther)
    | line :: _ =>
      if isOtherHeader line then
        let (children, stop) := collectChildren lines nameL spouseL
          (lines.length - (i + 1)) (i + 1)
        let (rest, flag) := otherLoop lines nameL spouseL fuel stop foundSpouse true
        (children ++ rest, flag)
      else if startsSpousePartner line || spouseL.any fun m => m.line = i then
        otherLoop lines nameL spouseL fuel (i + 1) true foundOther
      else if ¬ foundOther && foundSpouse && implicitOK line nameL spouseL then
        let (rest, flag) := otherLoop lines nameL spouseL fuel (i + 1) foundSpouse foundOther
        (line :: rest, flag)
      else otherLoop lines nameL spouseL fuel (i + 1) foundSpouse foundOther

/-- `array.join(', ')`. -/
def joinComma : List String → String
  | [] => ""
  | [s] => s
  | s :: rest => s ++ ", " ++ joinComma rest

/-- The single `other` candidate the arbiter pushes (or none). -/
def otherCandidates (lines : List String) (nameL spouseL : List FieldMatch) :
    List FieldMatch :=
  let (otherLines, foundOther) :=
    otherLoop lines nameL spouseL (lines.length + 1) 0 false false
  if otherLines.length > 0 then
    let ln :=
      if foundOther then (lines.findIdx? isOtherHeader).getD 0
      else (lines.findIdx? fun l => l = otherLines.getD 0 "").getD 0
    [mkMatch (joinComma otherLines)
      (if foundOther then (1 : Rat) else q80) ln
      (if foundOther then "other-section" else "other-implicit")]
  else []

/-! ### Best-match selection, success verdict, and the whole pipeline -/

def bestValue (l : List FieldMatch) : String :=
  match (jsSortDesc l).head? with
  | some m => m.value
  | none => ""

/-- `matches.other.sort(...).map(m => m.value).filter(Boolean).join(', ')`. -/
def otherJoined (l : List FieldMatch) : String :=
  joinComma (((jsSortDesc l).map (·.value)).filter (· ≠ ""))

/-- The resolved record (`LicenceFields` without the caller-attached
`createdAt` clock stamp, which is outside the matching logic). -/
structure LicenceFields where
  id : String
  name : String
  dor : String
  issue : String
  valid : String
  spousePartner : String
  other : String
deriving Repr, DecidableEq

structure ExtractResult where
  success : Bool
  fields : LicenceFields
  -- the source names this field `matches`, which is a Lean keyword
  table : FieldMatches
deriving Repr, DecidableEq

/-- The complete `extractFieldsV2` (extractFields.test.ts lines 266-567):
tokenize, scan every line, run the dependents pass, sort each candidate
list by descending confidence (V8's stable sort, which also leaves the
returned lists sorted), resolve each field to the top candidate (the
`other` field joins all sorted candidate values), and report success
iff `name`, `dor`, `issue` and `valid` all resolved non-empty. -/
def extractFieldsV2 (text : String) (now : Int) : ExtractResult :=
  let lines := toLines text
  let scanned := scanPass lines now
  let mtable : FieldMatches :=
    { scanned with
      other := scanned.other ++ otherCandidates lines scanned.name scanned.spousePartner }
  let sortedTable : FieldMatches :=
    ⟨jsSortDesc mtable.id, jsSortDesc mtable.name, jsSortDesc mtable.dor,
     jsSortDesc mtable.issue, jsSortDesc mtable.valid,
     jsSortDesc mtable.spousePartner, jsSortDesc mtable.other⟩
  let bestMatches : LicenceFields :=
    { id := bestValue mtable.id
      name := bestValue mtable.name
      dor := bestValue mtable.dor
      issue := bestValue mtable.issue
      valid := bestValue mtable.valid
      spousePartner := bestValue mtable.spousePartner
      other := otherJoined mtable.other }
  { success := bestMatches.name ≠ "" && bestMatches.dor ≠ "" &&
      bestMatches.issue ≠ "" && bestMatches.valid ≠ ""
    fields := bestMatches
    table := sortedTable }

/-- A representative evaluation instant for closed test vectors:
2026-01-01T00:00:00Z in epoch milliseconds. -/
def nowRef : Int := 1767225600000

/-! ### Specification-side selection rule (for the best-match claim)

The spec describes best-match selection as "take the value of the
highest-confidence candidate, earlier-produced candidates winning
ties".  `firstMaxValue` is that rule written directly: a left scan that
replaces the current best only on a strictly larger confidence. -/

def firstMaxElt (m : FieldMatch) : List FieldMatch → FieldMatch
  | [] => m
  | x :: xs => firstMaxElt (if m.confidence < x.confidence then x else m) xs

/-- The value of the first candidate of maximal confidence (empty string
for an empty list). -/
def firstMaxValue : List FieldMatch → String
  | [] => ""
  | m :: rest => (firstMaxElt m rest).value

/-! ### Named inputs for the closed test vectors -/

/-- The full labelled record of the spec's test battery. -/
def fullRecordText : String :=
  "NAME John Smith\nDOR 01/01/1990\nISSUE 01/01/2024\nVALID 01/01/2025\n" ++
  "SPOUSE/PARTNER Jane Smith\nOTHER\nChild 1\nChild 2\nLicence"

/-- A line holding a date range plus exactly two further date tokens,
one of which textually repeats a range date. -/
def dupRangeLine : String := "01/01/2020 01/01/2020 - 30/09/2025 02/02/2021"

/-- The spec's three-date unlabeled line (two dates plus a range). -/
def threeDateLine : String := "01/01/1982 22/08/2024 01/10/2024 - 30/09/2025"

/-- A lone plausible-age date (a scan consisting of one date line). -/
def loneDateText : String := "01/01/2000"

/-- An instant at which the lone date of `loneDateText` is under 18
years old: 2017-07-14T02:40:00Z. -/
def nowEarly : Int := 1500000000000

/-! ### Relations used to state the wall-clock and confidence claims -/

/-- Equality of candidate tables up to the wall-clock-dependent
`dor-age-range` candidates. -/
def EqExceptAge (a b : FieldMatches) : Prop :=
  a.id = b.id ∧ a.name = b.name ∧ a.issue = b.issue ∧ a.valid = b.valid ∧
  a.spousePartner = b.spousePartner ∧ a.other = b.other ∧
  a.dor.filter (fun m => m.pattern ≠ "dor-age-range") =
    b.dor.filter (fun m => m.pattern ≠ "dor-age-range")

/-- Descending order (weakly, by confidence). -/
def ConfSorted (l : List FieldMatch) : Prop :=
  l.Pairwise fun a b => b.confidence ≤ a.confidence

/-- Every candidate of every field list has confidence within `[0, 1]`. -/
def ConfBounded (t : FieldMatches) : Prop :=
  (∀ m ∈ t.id, 0 ≤ m.confidence ∧ m.confidence ≤ 1) ∧
  (∀ m ∈ t.name, 0 ≤ m.confidence ∧ m.confidence ≤ 1) ∧
  (∀ m ∈ t.dor, 0 ≤ m.confidence ∧ m.confidence ≤ 1) ∧
  (∀ m ∈ t.issue, 0 ≤ m.confidence ∧ m.confidence ≤ 1) ∧
  (∀ m ∈ t.valid, 0 ≤ m.confidence ∧ m.confidence ≤ 1) ∧
  (∀ m ∈ t.spousePartner, 0 ≤ m.confidence ∧ m.confidence ≤ 1) ∧
  (∀ m ∈ t.other, 0 ≤ m.confidence ∧ m.confidence ≤ 1)

/-! ## Lemmas about the stable confidence sort -/

theorem mem_insertDesc {z x : FieldMatch} {s : List FieldMatch} :
    z ∈ insertDesc x s ↔ z = x ∨ z ∈ s := by
  induction s with
  | nil => simp [insertDesc]
  | cons y ys ih =>
    by_cases h : y.confidence ≤ x.confidence
    · simp [insertDesc, h]
    · simp only [insertDesc, if_neg h, List.mem_cons, ih]
      tauto

theorem mem_jsSortDesc {z : FieldMatch} {l : List FieldMatch} :
    z ∈ jsSortDesc l ↔ z ∈ l := by
  induction l with
  | nil => simp [jsSortDesc]
  | cons m rest ih => simp [jsSortDesc, mem_insertDesc, ih]

theorem head_insertDesc (x : FieldMatch) (s : List FieldMatch) :
    (insertDesc x s).head? =
      some (match s.head? with
            | none => x
            | some y => if y.confidence ≤ x.confidence then x else y) := by
  cases s with
  | nil => rfl
  | cons y ys =>
    by_cases h : y.confidence ≤ x.confidence <;> simp [insertDesc, h]

/-- `if a.conf < b.conf then b else a` (keep-first max) is associative. -/
theorem firstMax_pick_assoc (a b c : FieldMatch) :
    (if (if a.confidence < b.confidence then b else a).confidence < c.confidence
       then c
       else if a.confidence < b.confidence then b else a) =
      (if a.confidence <
          (if b.confidence < c.confidence then c else b).confidence
        then if b.confidence < c.confidence then c else b
        else a) := by
  split_ifs <;> first | rfl | (exfalso; linarith)

theorem firstMaxElt_pick (x : FieldMatch) (xs : List FieldMatch) (m : FieldMatch) :
    firstMaxElt (if m.confidence < x.confidence then x else m) xs =
      (if m.confidence < (firstMaxElt x xs).confidence then firstMaxElt x xs else m) := by
  induction xs generalizing m x with
  | nil => simp [firstMaxElt]
  | cons y ys ih =>
    simp only [firstMaxElt]
    rw [firstMax_pick_assoc m x y, ih]

/-- The head of the stable descending sort is the first candidate of
maximal confidence. -/
theorem head_jsSortDesc (l : List FieldMatch) :
    (jsSortDesc l).head? =
      match l with
      | [] => none
      | m :: rest => some (firstMaxElt m rest) := by
  induction l with
  | nil => rfl
  | cons m rest ih =>
    simp only [jsSortDesc]
    rw [head_insertDesc]
    cases rest with
    | nil => simp [jsSortDesc, firstMaxElt]
    | cons x xs =>
      rw [ih]
      simp only [firstMaxElt]
      rw [firstMaxElt_pick]
      congr 1
      by_cases h : (firstMaxElt x xs).confidence ≤ m.confidence
      · rw [if_pos h, if_neg (by linarith)]
      · rw [if_neg h, if_pos (by linarith)]

/-- The resolved value is the first highest-confidence candidate. -/
theorem bestValue_eq_firstMaxValue (l : List FieldMatch) :
    bestValue l = firstMaxValue l := by
  cases l with
  | nil => rfl
  | cons m rest =>
    simp only [bestValue, firstMaxValue, head_jsSortDesc]

/-- A candidate never beats the accumulator when nothing exceeds it. -/
theorem firstMaxElt_of_le (m : FieldMatch) (l : List FieldMatch)
    (h : ∀ x ∈ l, x.confidence ≤ m.confidence) : firstMaxElt m l = m := by
  induction l with
  | nil => rfl
  | cons x xs ih =>
    have hx : x.confidence ≤ m.confidence := h x (by simp)
    simp only [firstMaxElt, if_neg (not_lt.mpr hx)]
    exact ih fun y hy => h y (by simp [hy])

theorem confSorted_insertDesc {s : List FieldMatch} (x : FieldMatch)
    (h : ConfSorted s) : ConfSorted (insertDesc x s) := by
  induction s with
  | nil => simp [insertDesc, ConfSorted]
  | cons y ys ih =>
    rcases List.pairwise_cons.mp h with ⟨hy, hys⟩
    by_cases hc : y.confidence ≤ x.confidence
    · unfold ConfSorted insertDesc
      rw [if_pos hc]
      refine List.pairwise_cons.mpr ⟨?_, h⟩
      intro z hz
      rcases List.mem_cons.mp hz with rfl | hz
      · exact hc
      · exact le_trans (hy z hz) hc
    · unfold ConfSorted insertDesc
      rw [if_neg hc]
      refine List.pairwise_cons.mpr ⟨?_, ih hys⟩
      intro z hz
      rcases mem_insertDesc.mp hz with rfl | hz
      · exact le_of_lt (not_le.mp hc)
      · exact hy z hz

theorem confSorted_jsSortDesc (l : List FieldMatch) : ConfSorted (jsSortDesc l) := by
  induction l with
  | nil => simp [jsSortDesc, ConfSorted]
  | cons m rest ih => exact confSorted_insertDesc m ih

/-- Selecting the first maximum from the sorted list gives the resolved
value again. -/
theorem firstMaxValue_jsSortDesc (l : List FieldMatch) :
    firstMaxValue (jsSortDesc l) = bestValue l := by
  cases hs : jsSortDesc l with
  | nil =>
    simp only [bestValue, hs, firstMaxValue]
    rfl
  | cons h t =>
    have hsorted := confSorted_jsSortDesc l
    rw [hs] at hsorted
    rcases List.pairwise_cons.mp hsorted with ⟨hh, _⟩
    simp only [firstMaxValue, bestValue, hs]
    rw [firstMaxElt_of_le h t hh]
    rfl

/-! ## Structural lemmas about the scanner and the arbiter -/

/-- The scanner itself never pushes an `other` candidate. -/
theorem scanPass_other_eq_nil (lines : List String) (now : Int) :
    (scanPass lines now).other = [] := by
  have key : ∀ (L : List Nat) (acc : FieldMatches), acc.other = [] →
      (L.foldl (fun a i => a.append (scanLine lines i now)) acc).other = [] := by
    intro L
    induction L with
    | nil => intro acc h; exact h
    | cons i L ih =>
      intro acc h
      refine ih _ ?_
      simp [FieldMatches.append, h, scanLine]
  exact key _ _ rfl

/-- The arbiter pushes at most one `other` candidate. -/
theorem otherCandidates_length_le (lines : List String)
    (nameL spouseL : List FieldMatch) :
    (otherCandidates lines nameL spouseL).length ≤ 1 := by
  unfold otherCandidates
  split
  split <;> simp

/-- The final `other` list (scanner part plus arbiter part) has at most
one candidate. -/
theorem other_list_short (lines : List String) (now : Int) :
    ((scanPass lines now).other ++
      otherCandidates lines (scanPass lines now).name
        (scanPass lines now).spousePartner).length ≤ 1 := by
  rw [scanPass_other_eq_nil]
  simpa using otherCandidates_length_le lines _ _

/-- On lists of at most one candidate, the join-all rule for `other`
agrees with take-the-first on the sorted list. -/
theorem otherJoined_of_short (l : List FieldMatch) (h : l.length ≤ 1) :
    otherJoined l = firstMaxValue (jsSortDesc l) := by
  match l, h with
  | [], _ => rfl
  | [m], _ =>
    show otherJoined [m] = firstMaxValue (jsSortDesc [m])
    have hs : jsSortDesc [m] = [m] := rfl
    rw [firstMaxValue_jsSortDesc]
    simp only [otherJoined, bestValue, hs]
    by_cases hv : m.value = ""
    · simp [joinComma, hv]
    · simp [joinComma, hv]

/-! ## Lemmas about date splitting -/

theorem splitSep_clean (y : List Char) (hy : ∀ c ∈ y, c ≠ '/' ∧ c ≠ '-') :
    splitSep y = [y] := by
  induction y with
  | nil => rfl
  | cons c r ih =>
    have hc := hy c (by simp)
    have hb : (c = '/' || c = '-') = false := by simp [hc.1, hc.2]
    simp [splitSep, hb, ih fun d hd => hy d (by simp [hd])]

theorem splitSep_sep (m y : List Char) (s2 : Char)
    (hm : ∀ c ∈ m, c ≠ '/' ∧ c ≠ '-') (hy : ∀ c ∈ y, c ≠ '/' ∧ c ≠ '-')
    (hs2 : s2 = '/' ∨ s2 = '-') :
    splitSep (m ++ s2 :: y) = [m, y] := by
  induction m with
  | nil =>
    have hb : (s2 = '/' || s2 = '-') = true := by
      rcases hs2 with h | h <;> simp [h]
    simp [splitSep, hb, splitSep_clean y hy]
  | cons c r ih =>
    have hc := hm c (by simp)
    have hb : (c = '/' || c = '-') = false := by simp [hc.1, hc.2]
    simp [splitSep, hb, ih fun d hd => hm d (by simp [hd])]

theorem splitSep_three (d m y : List Char) (s1 s2 : Char)
    (hd : ∀ c ∈ d, c ≠ '/' ∧ c ≠ '-') (hm : ∀ c ∈ m, c ≠ '/' ∧ c ≠ '-')
    (hy : ∀ c ∈ y, c ≠ '/' ∧ c ≠ '-')
    (hs1 : s1 = '/' ∨ s1 = '-') (hs2 : s2 = '/' ∨ s2 = '-') :
    splitSep (d ++ (s1 :: (m ++ (s2 :: y)))) = [d, m, y] := by
  induction d with
  | nil =>
    have hb : (s1 = '/' || s1 = '-') = true := by
      rcases hs1 with h | h <;> simp [h]
    simp [splitSep, hb, splitSep_sep m y s2 hm hy hs2]
  | cons c r ih =>
    have hc := hd c (by simp)
    have hb : (c = '/' || c = '-') = false := by simp [hc.1, hc.2]
    have hr := ih fun e he => hd e (by simp [he])
    show splitSep (c :: (r ++ (s1 :: (m ++ (s2 :: y))))) = [c :: r, m, y]
    simp [splitSep, hb, hr]

/-! ## Filtering commutes with the stable sort -/

theorem insertDesc_of_all_le (x : FieldMatch) (s : List FieldMatch)
    (h : ∀ z ∈ s, z.confidence ≤ x.confidence) : insertDesc x s = x :: s := by
  cases s with
  | nil => rfl
  | cons y ys => exact if_pos (h y (by simp))

theorem filter_insertDesc (p : FieldMatch → Bool) (x : FieldMatch)
    (s : List FieldMatch) (hs : ConfSorted s) :
    (insertDesc x s).filter p =
      if p x then insertDesc x (s.filter p) else s.filter p := by
  induction s with
  | nil =>
    by_cases hp : p x <;> simp [insertDesc, hp]
  | cons y ys ih =>
    rcases List.pairwise_cons.mp hs with ⟨hy, hys⟩
    by_cases hc : y.confidence ≤ x.confidence
    · rw [insertDesc, if_pos hc]
      by_cases hp : p x
      · rw [if_pos hp]
        rw [List.filter_cons_of_pos hp]
        rw [insertDesc_of_all_le x ((y :: ys).filter p) ?_]
        intro z hz
        rcases List.mem_cons.mp (List.mem_of_mem_filter hz) with rfl | hz2
        · exact hc
        · exact le_trans (hy z hz2) hc
      · rw [if_neg hp, List.filter_cons_of_neg hp]
    · rw [insertDesc, if_neg hc]
      by_cases hpy : p y
      · rw [List.filter_cons_of_pos hpy, List.filter_cons_of_pos hpy, ih hys]
        by_cases hp : p x
        · rw [if_pos hp, if_pos hp,
            insertDesc, if_neg hc]
        · rw [if_neg hp, if_neg hp]
      · rw [List.filter_cons_of_neg hpy, List.filter_cons_of_neg hpy, ih hys]

theorem filter_jsSortDesc (p : FieldMatch → Bool) (l : List FieldMatch) :
    (jsSortDesc l).filter p = jsSortDesc (l.filter p) := by
  induction l with
  | nil => rfl
  | cons m rest ih =>
    rw [jsSortDesc, filter_insertDesc p m _ (confSorted_jsSortDesc rest), ih]
    by_cases hp : p m
    · rw [if_pos hp, List.filter_cons_of_pos hp, jsSortDesc]
    · rw [if_neg hp, List.filter_cons_of_neg hp]

/-! ## Wall-clock dependence is confined to the age heuristic -/

theorem eqExceptAge_refl (a : FieldMatches) : EqExceptAge a a :=
  ⟨rfl, rfl, rfl, rfl, rfl, rfl, rfl⟩

theorem eqExceptAge_append {a a' b b' : FieldMatches}
    (h1 : EqExceptAge a a') (h2 : EqExceptAge b b') :
    EqExceptAge (a.append b) (a'.append b') := by
  obtain ⟨i1, n1, s1, v1, p1, o1, d1⟩ := h1
  obtain ⟨i2, n2, s2, v2, p2, o2, d2⟩ := h2
  exact ⟨by simp [FieldMatches.append, i1, i2],
    by simp [FieldMatches.append, n1, n2],
    by simp [FieldMatches.append, s1, s2],
    by simp [FieldMatches.append, v1, v2],
    by simp [FieldMatches.append, p1, p2],
    by simp [FieldMatches.append, o1, o2],
    by
      show List.filter _ (a.dor ++ b.dor) = List.filter _ (a'.dor ++ b'.dor)
      rw [List.filter_append, List.filter_append, d1, d2]⟩

theorem eqExceptAge_unlabeledPass (line : String) (ln : Nat) (n1 n2 : Int) :
    EqExceptAge (unlabeledPass line ln n1) (unlabeledPass line ln n2) := by
  cases hd : datesOf line with
  | nil =>
    simp only [unlabeledPass, hd]
    exact eqExceptAge_refl _
  | cons a rest =>
    cases hr : rangeOf line with
    | some p =>
      simp only [unlabeledPass, hd, hr]
      exact eqExceptAge_refl _
    | none =>
      simp only [unlabeledPass, hd, hr]
      by_cases h3 : (a :: rest).length = 3
      · rw [if_pos h3, if_pos h3]
        exact eqExceptAge_refl _
      · rw [if_neg h3, if_neg h3]
        by_cases h1 : (a :: rest).length = 1
        · rw [if_pos h1, if_pos h1]
          refine ⟨?_, ?_, ?_, ?_, ?_, ?_, ?_⟩ <;>
            (split_ifs <;> simp [mkMatch, FieldMatches.empty])
        · rw [if_neg h1, if_neg h1]
          exact eqExceptAge_refl _

theorem eqExceptAge_scanLine (lines : List String) (i : Nat) (n1 n2 : Int) :
    EqExceptAge (scanLine lines i n1) (scanLine lines i n2) := by
  obtain ⟨_, _, hissue, hvalid, _, _, hdor⟩ :=
    eqExceptAge_unlabeledPass (lines.getD i "") i n1 n2
  refine ⟨rfl, rfl, ?_, ?_, rfl, rfl, ?_⟩
  · simp only [scanLine]
    rw [hissue]
  · simp only [scanLine]
    rw [hvalid]
  · simp only [scanLine]
    rw [List.filter_append, List.filter_append, hdor]

theorem eqExceptAge_scanPass (lines : List String) (n1 n2 : Int) :
    EqExceptAge (scanPass lines n1) (scanPass lines n2) := by
  have key : ∀ (L : List Nat) (acc acc' : FieldMatches), EqExceptAge acc acc' →
      EqExceptAge (L.foldl (fun a i => a.append (scanLine lines i n1)) acc)
        (L.foldl (fun a i => a.append (scanLine lines i n2)) acc') := by
    intro L
    induction L with
    | nil => intro _ _ h; exact h
    | cons i L ih =>
      intro acc acc' h
      exact ih _ _ (eqExceptAge_append h (eqExceptAge_scanLine lines i n1 n2))
  exact key _ _ _ (eqExceptAge_refl _)

/-! ## Confidence bounds -/

/-- Unit-interval bounds for a closed confidence literal, by
computation. -/
theorem conf_closed_bounds (c : ℚ) (h : decide (0 ≤ c ∧ c ≤ 1) = true) :
    0 ≤ c ∧ c ≤ 1 := of_decide_eq_true h

theorem confBounded_empty : ConfBounded FieldMatches.empty := by
  refine ⟨?_, ?_, ?_, ?_, ?_, ?_, ?_⟩ <;> intro m hm <;> simp [FieldMatches.empty] at hm

theorem confBounded_append {a b : FieldMatches}
    (ha : ConfBounded a) (hb : ConfBounded b) : ConfBounded (a.append b) := by
  obtain ⟨a1, a2, a3, a4, a5, a6, a7⟩ := ha
  obtain ⟨b1, b2, b3, b4, b5, b6, b7⟩ := hb
  refine ⟨?_, ?_, ?_, ?_, ?_, ?_, ?_⟩ <;> intro m hm <;>
    simp only [FieldMatches.append, List.mem_append] at hm
  · exact hm.elim (a1 m) (b1 m)
  · exact hm.elim (a2 m) (b2 m)
  · exact hm.elim (a3 m) (b3 m)
  · exact hm.elim (a4 m) (b4 m)
  · exact hm.elim (a5 m) (b5 m)
  · exact hm.elim (a6 m) (b6 m)
  · exact hm.elim (a7 m) (b7 m)

theorem confBounded_unlabeledPass (line : String) (ln : Nat) (now : Int) :
    ConfBounded (unlabeledPass line ln now) := by
  refine ⟨?_, ?_, ?_, ?_, ?_, ?_, ?_⟩ <;> intro m hm <;>
    unfold unlabeledPass at hm <;>
    (repeat' split at hm) <;>
    (try simp only [apply_ite, List.mem_ite_nil_right] at hm) <;>
    (repeat' split at hm) <;>
    (try simp [FieldMatches.empty, mkMatch] at hm) <;>
    (try subst hm) <;>
    exact conf_closed_bounds _ rfl

theorem confBounded_scanLine (lines : List String) (i : Nat) (now : Int) :
    ConfBounded (scanLine lines i now) := by
  obtain ⟨-, -, huld, huli, hulv, -, -⟩ :=
    confBounded_unlabeledPass (lines.getD i "") i now
  refine ⟨?_, ?_, ?_, ?_, ?_, ?_, ?_⟩ <;> intro m hm <;>
    simp only [scanLine] at hm
  · repeat' split at hm
    all_goals first
      | (rw [List.mem_singleton] at hm; subst hm; exact conf_closed_bounds _ rfl)
      | exact absurd hm (by simp)
  · rcases List.mem_append.mp hm with h | h <;>
    · repeat' split at h
      all_goals first
        | (rw [List.mem_singleton] at h; subst h; exact conf_closed_bounds _ rfl)
        | exact absurd h (by simp)
  · rcases List.mem_append.mp hm with h | h
    · repeat' split at h
      all_goals first
        | (rw [List.mem_singleton] at h; subst h; exact conf_closed_bounds _ rfl)
        | exact absurd h (by simp)
    · exact huld m h
  · rcases List.mem_append.mp hm with h | h
    · repeat' split at h
      all_goals first
        | (rw [List.mem_singleton] at h; subst h; exact conf_closed_bounds _ rfl)
        | exact absurd h (by simp)
    · exact huli m h
  · rcases List.mem_append.mp hm with h | h
    · repeat' split at h
      all_goals first
        | (rw [List.mem_singleton] at h; subst h; exact conf_closed_bounds _ rfl)
        | exact absurd h (by simp)
    · exact hulv m h
  · repeat' split at hm
    all_goals first
      | (rw [List.mem_singleton] at hm; subst hm; exact conf_closed_bounds _ rfl)
      | exact absurd hm (by simp)
  · exact absurd hm (by simp)

theorem confBounded_scanPass (lines : List String) (now : Int) :
    ConfBounded (scanPass lines now) := by
  have key : ∀ (L : List Nat) (acc : FieldMatches), ConfBounded acc →
      ConfBounded (L.foldl (fun a i => a.append (scanLine lines i now)) acc) := by
    intro L
    induction L with
    | nil => intro _ h; exact h
    | cons i L ih =>
      intro acc h
      exact ih _ (confBounded_append h (confBounded_scanLine lines i now))
  exact key _ _ confBounded_empty

theorem confBounded_otherCandidates (lines : List String)
    (nameL spouseL : List FieldMatch) (m : FieldMatch)
    (hm : m ∈ otherCandidates lines nameL spouseL) :
    0 ≤ m.confidence ∧ m.confidence ≤ 1 := by
  unfold otherCandidates at hm
  repeat' split at hm
  all_goals first
    | (simp only [List.mem_singleton] at hm; subst hm;
       exact conf_closed_bounds _ rfl)
    | exact absurd hm (by simp)

/-! ## The per-line date rules as equations -/

/-- The range branch of the unlabeled-date block: a range match plus
exactly two surviving dates after the value-based exclusion yields the
single range `valid` candidate and the timestamp-ordered `dor`/`issue`
pair (an unparseable timestamp compares as equal, keeping token order). -/
theorem unlabeledPass_range (line : String) (ln : Nat) (now : Int)
    (r1 r2 d1 d2 : String)
    (hr : rangeOf line = some (r1, r2))
    (hf : (datesOf line).filter (fun d => ¬ (d = r1 || d = r2)) = [d1, d2]) :
    unlabeledPass line ln now =
      { FieldMatches.empty with
        valid := [mkMatch (normalizeDate r1 ++ " - " ++ normalizeDate r2)
          q95 ln "valid-range"]
        dor := [mkMatch (normalizeDate
            (if tsLt (jsTimestamp (normalizeDate d2)) (jsTimestamp (normalizeDate d1))
             then d2 else d1)) q90 ln "dor-with-range"]
        issue := [mkMatch (normalizeDate
            (if tsLt (jsTimestamp (normalizeDate d2)) (jsTimestamp (normalizeDate d1))
             then d1 else d2)) q85 ln "issue-with-range"] } := by
  cases hdates : datesOf line with
  | nil => rw [hdates] at hf; simp at hf
  | cons a rest =>
    rw [hdates] at hf
    simp only [unlabeledPass, hdates, hr, hf]
    simp only [List.length_cons, List.length_nil, Nat.reduceAdd, if_pos]
    unfold sortByTimestamp
    simp only [List.map_cons, List.map_nil, List.foldl_cons, List.foldl_nil, insertAsc]
    by_cases hts : tsLt (jsTimestamp (normalizeDate d2)) (jsTimestamp (normalizeDate d1)) = true
    · simp only [hts, if_true]
      rfl
    · simp only [hts, if_false, Bool.false_eq_true]
      rfl

/-- The lone-date branch of the unlabeled-date block: with exactly one
date token and no range match, a single 0.8 `dor-age-range` candidate is
pushed exactly when the date parses and its age (in 365-day years of
milliseconds) lies strictly between 18 and 100; otherwise nothing. -/
theorem unlabeledPass_single (line : String) (ln : Nat) (now : Int) (d : String)
    (hd : datesOf line = [d]) (hr : rangeOf line = none) :
    unlabeledPass line ln now =
      (if ageInBand (normalizeDate d) now
       then { FieldMatches.empty with
                dor := [mkMatch (normalizeDate d) q80 ln "dor-age-range"] }
       else FieldMatches.empty) := by
  simp only [unlabeledPass, hd, hr]
  norm_num

/-! ## The claims -/

/-- Claim C1: for every input text, the extraction result's `success`
flag is true if and only if the resolved `name`, `dor`, `issue` and
`valid` fields are all non-empty strings after best-match selection; the
`id` field is not part of the minimum-required set (it does not occur in
the condition). -/
theorem c1_success_iff_required_fields (text : String) (now : Int) :
    (extractFieldsV2 text now).success = true ↔
      ((extractFieldsV2 text now).fields.name ≠ "" ∧
       (extractFieldsV2 text now).fields.dor ≠ "" ∧
       (extractFieldsV2 text now).fields.issue ≠ "" ∧
       (extractFieldsV2 text now).fields.valid ≠ "") := by
  simp only [extractFieldsV2, Bool.and_eq_true, decide_eq_true_eq]
  tauto

/-- Claim C2: the full labelled record (NAME/DOR/ISSUE/VALID/
SPOUSE-PARTNER lines, an OTHER section with two dependent lines, a
closing Licence marker) resolves every field as the spec's test expects,
with the OTHER dependents joined by a comma, and succeeds.  (Evaluated
at the representative clock instant `nowRef`; the resolved values do not
depend on it because every winning candidate is an explicitly labelled
1.0-confidence match.) -/
theorem c2_full_labelled_record :
    (extractFieldsV2 fullRecordText nowRef).fields =
      { id := "", name := "John Smith", dor := "01/01/1990",
        issue := "01/01/2024", valid := "01/01/2025",
        spousePartner := "Jane Smith", other := "Child 1, Child 2" } ∧
    (extractFieldsV2 fullRecordText nowRef).success = true := by
  exact ⟨by decide, by decide⟩

/-- Claim C3: a date token that splits on `/` or `-` into exactly three
groups is rebuilt as DD/MM/YYYY — the day group stripped of non-digits
and left-padded to two characters, the month group left-padded to two
characters, a two-character year prefixed with `20` — while any token
that does not split into exactly three groups is returned unchanged;
in particular `normalizeDate "1/2/90" = "01/02/2090"`. -/
theorem c3_date_normalization :
    (∀ (d m y : List Char) (s1 s2 : Char),
      (∀ c ∈ d, c ≠ '/' ∧ c ≠ '-') → (∀ c ∈ m, c ≠ '/' ∧ c ≠ '-') →
      (∀ c ∈ y, c ≠ '/' ∧ c ≠ '-') →
      (s1 = '/' ∨ s1 = '-') → (s2 = '/' ∨ s2 = '-') →
      normalizeDate (List.asString (d ++ (s1 :: (m ++ (s2 :: y))))) =
        (padStart2 (digitsOnly d) ++ '/' :: padStart2 m ++ '/' ::
          (if y.length = 2 then '2' :: '0' :: y else y)).asString) ∧
    (∀ s : String, (splitSep s.data).length ≠ 3 → normalizeDate s = s) ∧
    normalizeDate "1/2/90" = "01/02/2090" := by
  refine ⟨?_, ?_, by decide⟩
  · intro d m y s1 s2 hd hm hy hs1 hs2
    unfold normalizeDate
    have hdata : (List.asString (d ++ (s1 :: (m ++ (s2 :: y))))).data =
        d ++ (s1 :: (m ++ (s2 :: y))) := rfl
    rw [hdata, splitSep_three d m y s1 s2 hd hm hy hs1 hs2]
  · intro s hs
    unfold normalizeDate
    cases h : splitSep s.data with
    | nil => rfl
    | cons a t =>
      cases t with
      | nil => rfl
      | cons b t2 =>
        cases t2 with
        | nil => rfl
        | cons c t3 =>
          cases t3 with
          | nil => rw [h] at hs; simp at hs
          | cons e t4 => rfl

/-- Witness for C3: the padded two-digit-year example, and a four-group
token passing through unchanged. -/
theorem c3_date_normalization_witness :
    normalizeDate "1/2/90" = "01/02/2090" ∧ normalizeDate "1/2/3/4" = "1/2/3/4" :=
  ⟨c3_date_normalization.2.2, c3_date_normalization.2.1 "1/2/3/4" (by decide)⟩

/-- Counterexample to claim C4 as stated: `dupRangeLine` carries a date
range (`01/01/2020 - 30/09/2025`) plus exactly two other date-token
occurrences (a leading `01/01/2020` and `02/02/2021`), yet the scanner
records no `dor` and no `issue` candidate for the line: the exclusion
step removes every token textually equal to a range date, so only one
date survives and the two-remaining-dates rule does not fire. -/
theorem c4_counterexample :
    rangeOf dupRangeLine = some ("01/01/2020", "30/09/2025") ∧
    datesOf dupRangeLine =
      ["01/01/2020", "01/01/2020", "30/09/2025", "02/02/2021"] ∧
    (unlabeledPass dupRangeLine 0 nowRef).valid =
      [mkMatch "01/01/2020 - 30/09/2025" q95 0 "valid-range"] ∧
    (unlabeledPass dupRangeLine 0 nowRef).dor = [] ∧
    (unlabeledPass dupRangeLine 0 nowRef).issue = [] ∧
    (scanLine [dupRangeLine] 0 nowRef).dor = [] ∧
    (scanLine [dupRangeLine] 0 nowRef).issue = [] := by
  refine ⟨by decide, by decide, by decide, by decide, by decide, by decide, by decide⟩

/-- Claim C4 (amended): for every scanned line whose range regex matches
with groups `r1`, `r2`, and on which the per-line exclusion — which
removes every date token textually equal to `r1` or `r2`, not just the
range's own two occurrences — leaves exactly two date tokens, the block
records exactly one `valid` candidate `norm(r1) - norm(r2)` at 0.95,
a `dor` candidate for the older of the two remaining dates at 0.9 and an
`issue` candidate for the newer at 0.85, "older/newer" by parsed
timestamp with unparseable timestamps comparing as equal (token order
kept). -/
theorem c4_range_rule_amended (line : String) (ln : Nat) (now : Int)
    (r1 r2 d1 d2 : String)
    (hr : rangeOf line = some (r1, r2))
    (hf : (datesOf line).filter (fun d => ¬ (d = r1 || d = r2)) = [d1, d2]) :
    unlabeledPass line ln now =
      { FieldMatches.empty with
        valid := [mkMatch (normalizeDate r1 ++ " - " ++ normalizeDate r2)
          q95 ln "valid-range"]
        dor := [mkMatch (normalizeDate
            (if tsLt (jsTimestamp (normalizeDate d2)) (jsTimestamp (normalizeDate d1))
             then d2 else d1)) q90 ln "dor-with-range"]
        issue := [mkMatch (normalizeDate
            (if tsLt (jsTimestamp (normalizeDate d2)) (jsTimestamp (normalizeDate d1))
             then d1 else d2)) q85 ln "issue-with-range"] } :=
  unlabeledPass_range line ln now r1 r2 d1 d2 hr hf

/-- Witness for C4 (amended) on the spec's three-date line: range to
`valid`, the 1982 date to `dor`, the (unparseable-in-V8) `22/08/2024`
to `issue` by kept insertion order. -/
theorem c4_range_rule_amended_witness :
    unlabeledPass threeDateLine 0 nowRef =
      { FieldMatches.empty with
        valid := [mkMatch "01/10/2024 - 30/09/2025" q95 0 "valid-range"]
        dor := [mkMatch "01/01/1982" q90 0 "dor-with-range"]
        issue := [mkMatch "22/08/2024" q85 0 "issue-with-range"] } := by
  have h := c4_range_rule_amended threeDateLine 0 nowRef
    "01/10/2024" "30/09/2025" "01/01/1982" "22/08/2024" (by decide) (by decide)
  exact h.trans (by decide)

/-- Claim C6: on a scanned line whose date tokens consist of exactly one
date and which contains no range, the unlabeled-date logic records a
single `dor` candidate at confidence 0.8 exactly when the (normalized)
date parses and its age relative to the current time lies strictly
between 18 and 100 years; outside that band the line's unlabeled-date
logic records no candidate at all. -/
theorem c6_lone_date_age_band (line : String) (ln : Nat) (now : Int) (d : String)
    (hd : datesOf line = [d]) (hr : rangeOf line = none) :
    unlabeledPass line ln now =
      (if ageInBand (normalizeDate d) now
       then { FieldMatches.empty with
                dor := [mkMatch (normalizeDate d) q80 ln "dor-age-range"] }
       else FieldMatches.empty) :=
  unlabeledPass_single line ln now d hd hr

/-- Witness for C6: a lone 2000 date is in band at `nowRef` (one
candidate) and out of band at `nowEarly` (no candidate). -/
theorem c6_lone_date_age_band_witness :
    (unlabeledPass loneDateText 0 nowRef).dor =
      [mkMatch "01/01/2000" q80 0 "dor-age-range"] ∧
    unlabeledPass loneDateText 0 nowEarly = FieldMatches.empty := by
  constructor
  · have h := c6_lone_date_age_band loneDateText 0 nowRef "01/01/2000"
      (by decide) (by decide)
    rw [h]
    decide
  · have h := c6_lone_date_age_band loneDateText 0 nowEarly "01/01/2000"
      (by decide) (by decide)
    rw [h]
    decide

/-- Claim C5: for each of the seven fields the resolved value is the
value of the highest-confidence candidate of that field's list, earlier
candidates winning ties (the stable descending sort's head), or the
empty string on an empty list — including the `other` field.  The
second conjunct states the take-the-first rule against the
specification-side selector `firstMaxValue` for arbitrary candidate
lists. -/
theorem c5_best_match_selection (text : String) (now : Int) :
    ((extractFieldsV2 text now).fields.id =
        firstMaxValue (extractFieldsV2 text now).table.id ∧
     (extractFieldsV2 text now).fields.name =
        firstMaxValue (extractFieldsV2 text now).table.name ∧
     (extractFieldsV2 text now).fields.dor =
        firstMaxValue (extractFieldsV2 text now).table.dor ∧
     (extractFieldsV2 text now).fields.issue =
        firstMaxValue (extractFieldsV2 text now).table.issue ∧
     (extractFieldsV2 text now).fields.valid =
        firstMaxValue (extractFieldsV2 text now).table.valid ∧
     (extractFieldsV2 text now).fields.spousePartner =
        firstMaxValue (extractFieldsV2 text now).table.spousePartner ∧
     (extractFieldsV2 text now).fields.other =
        firstMaxValue (extractFieldsV2 text now).table.other) ∧
    ∀ l : List FieldMatch, bestValue l = firstMaxValue l := by
  refine ⟨?_, bestValue_eq_firstMaxValue⟩
  simp only [extractFieldsV2]
  refine ⟨?_, ?_, ?_, ?_, ?_, ?_, ?_⟩ <;>
    first
      | exact (firstMaxValue_jsSortDesc _).symm
      | exact otherJoined_of_short _ (other_list_short _ _)

/-- Claim C10 (implicit behaviour): the unlabeled-date rules run on every
line with date tokens, including lines carrying an explicit label — a
line containing a word-bounded `DOR`, exactly one date token, no range,
and an in-band age records two `dor` candidates for the same date: the
labelled candidate at confidence 1.0 followed by the `dor-age-range`
candidate at confidence 0.8. -/
theorem c10_labeled_line_age_overlap (lines : List String) (i : Nat)
    (now : Int) (d : String)
    (hw : hasWordCI (lines.getD i "") "dor" = true)
    (hd : datesOf (lines.getD i "") = [d])
    (hr : rangeOf (lines.getD i "") = none)
    (hage : ageInBand (normalizeDate d) now = true) :
    (scanLine lines i now).dor =
      [mkMatch (normalizeDate d) 1 i "dor-labeled",
       mkMatch (normalizeDate d) q80 i "dor-age-range"] := by
  have hfd : firstDateOf (lines.getD i "") = some d := by
    rw [firstDateOf, hd]
    rfl
  simp only [scanLine, hw, hfd, if_true]
  rw [unlabeledPass_single _ i now d hd hr]
  simp [hage]

/-- Witness for C10: the labelled line `DOR 01/01/1990` at the
representative instant yields both candidates. -/
theorem c10_labeled_line_age_overlap_witness :
    (scanLine ["DOR 01/01/1990"] 0 nowRef).dor =
      [mkMatch "01/01/1990" 1 0 "dor-labeled",
       mkMatch "01/01/1990" q80 0 "dor-age-range"] := by
  have h := c10_labeled_line_age_overlap ["DOR 01/01/1990"] 0 nowRef
    "01/01/1990" (by decide) (by decide) (by decide) (by decide)
  exact h.trans (by decide)

/-- Counterexample to claim C8 as stated: the matching logic does depend
on wall-clock time beyond `createdAt` — extracting the same lone-date
text at two different instants yields different candidate tables (the
0.8 `dor-age-range` candidate exists only when the date's age is in
band), and here even a different resolved `dor` field. -/
theorem c8_counterexample :
    (extractFieldsV2 loneDateText nowEarly).table ≠
      (extractFieldsV2 loneDateText nowRef).table ∧
    (extractFieldsV2 loneDateText nowEarly).fields.dor ≠
      (extractFieldsV2 loneDateText nowRef).fields.dor := by
  exact ⟨by decide, by decide⟩

/-- Claim C8 (amended): extraction is a pure function of the input text
and the clock instant, so two invocations at the same instant agree
exactly; across different instants everything except the lone-date age
heuristic is invariant — all candidate lists other than `dor` coincide,
the `dor` lists coincide after discarding `dor-age-range` candidates,
and every resolved field except `dor` (and hence possibly `success`)
coincides. -/
theorem c8_clock_invariance_amended (text : String) (n1 n2 : Int) :
    (extractFieldsV2 text n1).table.id = (extractFieldsV2 text n2).table.id ∧
    (extractFieldsV2 text n1).table.name = (extractFieldsV2 text n2).table.name ∧
    (extractFieldsV2 text n1).table.issue = (extractFieldsV2 text n2).table.issue ∧
    (extractFieldsV2 text n1).table.valid = (extractFieldsV2 text n2).table.valid ∧
    (extractFieldsV2 text n1).table.spousePartner =
      (extractFieldsV2 text n2).table.spousePartner ∧
    (extractFieldsV2 text n1).table.other = (extractFieldsV2 text n2).table.other ∧
    (extractFieldsV2 text n1).table.dor.filter
        (fun m => m.pattern ≠ "dor-age-range") =
      (extractFieldsV2 text n2).table.dor.filter
        (fun m => m.pattern ≠ "dor-age-range") ∧
    (extractFieldsV2 text n1).fields.id = (extractFieldsV2 text n2).fields.id ∧
    (extractFieldsV2 text n1).fields.name = (extractFieldsV2 text n2).fields.name ∧
    (extractFieldsV2 text n1).fields.issue = (extractFieldsV2 text n2).fields.issue ∧
    (extractFieldsV2 text n1).fields.valid = (extractFieldsV2 text n2).fields.valid ∧
    (extractFieldsV2 text n1).fields.spousePartner =
      (extractFieldsV2 text n2).fields.spousePartner ∧
    (extractFieldsV2 text n1).fields.other =
      (extractFieldsV2 text n2).fields.other := by
  obtain ⟨hid, hname, hissue, hvalid, hsp, hother, hdor⟩ :=
    eqExceptAge_scanPass (toLines text) n1 n2
  simp only [extractFieldsV2]
  refine ⟨?_, ?_, ?_, ?_, ?_, ?_, ?_, ?_, ?_, ?_, ?_, ?_, ?_⟩
  · rw [hid]
  · rw [hname]
  · rw [hissue]
  · rw [hvalid]
  · rw [hsp]
  · rw [hother, hname, hsp]
  · show ((jsSortDesc _).filter _) = ((jsSortDesc _).filter _)
    rw [filter_jsSortDesc, filter_jsSortDesc, hdor]
  · rw [hid]
  · rw [hname]
  · rw [hissue]
  · rw [hvalid]
  · rw [hsp]
  · rw [hother, hname, hsp]

/-- Claim C9: every candidate match appearing in any of the seven field
lists of the table returned by extraction, for every input text and
clock instant, has a confidence in the closed interval `[0, 1]`. -/
theorem c9_confidence_in_unit_interval (text : String) (now : Int) :
    ConfBounded (extractFieldsV2 text now).table := by
  obtain ⟨h1, h2, h3, h4, h5, h6, h7⟩ := confBounded_scanPass (toLines text) now
  simp only [extractFieldsV2]
  refine ⟨?_, ?_, ?_, ?_, ?_, ?_, ?_⟩ <;> intro m hm <;> rw [mem_jsSortDesc] at hm
  · exact h1 m hm
  · exact h2 m hm
  · exact h3 m hm
  · exact h4 m hm
  · exact h5 m hm
  · exact h6 m hm
  · rcases List.mem_append.mp hm with h | h
    · exact h7 m h
    · exact confBounded_otherCandidates _ _ _ m h

/-- Witness for C9: the labelled `dor` candidate of a concrete scan is
in the returned table and its confidence is within `[0, 1]`. -/
theorem c9_confidence_in_unit_interval_witness :
    mkMatch "01/01/1990" 1 0 "dor-labeled" ∈
      (extractFieldsV2 "DOR 01/01/1990" nowRef).table.dor ∧
    (0 ≤ (mkMatch "01/01/1990" 1 0 "dor-labeled").confidence ∧
     (mkMatch "01/01/1990" 1 0 "dor-labeled").confidence ≤ 1) := by
  have h := c9_confidence_in_unit_interval "DOR 01/01/1990" nowRef
  exact ⟨by decide, h.2.2.1 _ (by decide)⟩

/-- Claim C7: the extraction function is total by construction (it is a
Lean function), and on the empty string it returns a well-formed result
whose candidate table has an empty list for every one of the seven
fields. -/
theorem c7_empty_input (now : Int) :
    (extractFieldsV2 "" now).table = FieldMatches.empty := rfl

end SlickScan
